import Mathlib

/-!
# Verification of the NeerSetu map geometry and chat transcript logic

This file is a shallow embedding in Lean 4 of the algorithmic core of the
NeerSetu repository: the GeoJSON district-containment filter of the
`/api/geojson` route, the SVG projection and zoom/hover machinery of the
interactive map component, the `sendMessage` transcript update of the chat
page, and the dedup step of `/api/detect-location`.

JavaScript numbers are modelled as rationals (`ℚ`), so every arithmetic
identity below is exact; timers are modelled with natural-number
timestamps.  Fallible or absent values (`null`/`undefined`) are modelled
with `Option`.  The file is organised as definitions first (one section
per source module), then the theorems.
-/

namespace NeerSetu

/-! ## GeoJSON route: centroid containment of districts (api/geojson GET)

On a state-level request (`state` set, `district` unset) with a found state
outline and a readable `output.geojson`, the GET handler filters the
district features of `output.geojson` by whether their centroid
(`calculateFeatureCentroid`) lies in some state feature
(`isPointInFeature`) and attaches them as `districtsGeoJson` when the
filtered list is non-empty (`districtsGeoJsonData || undefined`).  File and
network reads are modelled by their parsed results. -/

/-- A GeoJSON geometry as the route understands it: `Polygon` (a list of
rings, each a list of `[lon, lat]` pairs) or `MultiPolygon` (a list of
polygons).  Other geometry types take the same code paths as a missing
geometry (`return null` / `return false`), so they are modelled by a
`none` geometry on the feature. -/
inductive Geometry where
  | polygon (rings : List (List (ℚ × ℚ)))
  | multiPolygon (polygons : List (List (List (ℚ × ℚ))))
deriving DecidableEq, Repr

/-- A feature as consumed by the route: only `geometry.coordinates`
matters; `none` models `!feature?.geometry?.coordinates`. -/
structure GeoFeature where
  geometry : Option Geometry
deriving DecidableEq, Repr

/-- The expression `coords[0]` guarded by `Array.isArray(coords[0])`: the outer ring, or
nothing for an empty ring list. -/
def outerRing : List (List (ℚ × ℚ)) → List (ℚ × ℚ)
  | [] => []
  | r :: _ => r

/-- The `allCoords` array of `calculateFeatureCentroid`: the outer ring of
a polygon, or the concatenated outer rings of a multipolygon. -/
def centroidCoords (f : GeoFeature) : List (ℚ × ℚ) :=
  match f.geometry with
  | none => []
  | some (.polygon rings) => outerRing rings
  | some (.multiPolygon polys) => (polys.map outerRing).flatten

/-- Function `calculateFeatureCentroid`: `null` when no coordinates, else the
arithmetic mean (`reduce` sums divided by length) of `allCoords`. -/
def calculateFeatureCentroid (f : GeoFeature) : Option (ℚ × ℚ) :=
  let allCoords := centroidCoords f
  if allCoords.length = 0 then none
  else
    some (allCoords.foldl (fun s c => s + c.1) 0 / allCoords.length,
          allCoords.foldl (fun s c => s + c.2) 0 / allCoords.length)

/-- The `(i, j)` vertex pairs visited by the ray-casting loop
`for (let i = 0, j = n - 1; i < n; j = i++)`: current vertex paired with
its predecessor, wrapping at the start. -/
def edgePairs (polygon : List (ℚ × ℚ)) : List ((ℚ × ℚ) × (ℚ × ℚ)) :=
  match polygon.getLast? with
  | none => []
  | some lst => polygon.zip (lst :: polygon.dropLast)

/-- Function `isPointInPolygon`: even-odd ray casting.  The JS division
`(y - yi) / (yj - yi)` is never reached when `yj = yi` (the strict-side
test short-circuits), so the total division of `ℚ` is faithful. -/
def isPointInPolygon (point : ℚ × ℚ) (polygon : List (ℚ × ℚ)) : Bool :=
  (edgePairs polygon).foldl
    (fun inside e =>
      let xi := e.1.1
      let yi := e.1.2
      let xj := e.2.1
      let yj := e.2.2
      let intersect :=
        (decide (yi > point.2) != decide (yj > point.2)) &&
          decide (point.1 < (xj - xi) * (point.2 - yi) / (yj - yi) + xi)
      if intersect then !inside else inside)
    false

/-- Function `isPointInFeature`: test the outer ring of a polygon, or the outer
ring of any polygon of a multipolygon. -/
def isPointInFeature (point : ℚ × ℚ) (f : GeoFeature) : Bool :=
  match f.geometry with
  | none => false
  | some (.polygon rings) =>
    match rings with
    | [] => false
    | r :: _ => isPointInPolygon point r
  | some (.multiPolygon polys) =>
    polys.any fun poly =>
      match poly with
      | [] => false
      | r :: _ => isPointInPolygon point r

/-- The filter predicate of the district-loading block: the district has a
centroid and some state feature contains it. -/
def districtMatches (stateFeatures : List GeoFeature) (d : GeoFeature) : Bool :=
  match calculateFeatureCentroid d with
  | none => false
  | some c => stateFeatures.any fun s => isPointInFeature c s

/-- The `districtsGeoJson` field computed by the state-level branch:
`none` models the omitted field (`districtsGeoJsonData || undefined`),
`some` the attached feature list. -/
def stateDistrictsGeoJson (stateFeatures : List GeoFeature)
    (allDistricts : List GeoFeature) : Option (List GeoFeature) :=
  if 0 < allDistricts.length then
    let matching := allDistricts.filter (districtMatches stateFeatures)
    if 0 < matching.length then some matching else none
  else none

/-- Witness fixture: a square state outline. -/
def sampleState : GeoFeature :=
  ⟨some (.polygon [[((0 : ℚ), (0 : ℚ)), (10, 0), (10, 10), (0, 10)]])⟩

/-- Witness fixture: a small district square centred at `(5, 5)`. -/
def sampleDistrict : GeoFeature :=
  ⟨some (.polygon [[((4 : ℚ), (4 : ℚ)), (6, 4), (6, 6), (4, 6)]])⟩

/-! ## Map bounds and projection (map-visualization component)

The interactive map component computes a bounding box record with fields
`minLon, maxLon, minLat, maxLat, width, height, centerX, centerY`; a null
bounds value is modelled as `Option MapBounds`. -/

/-- The record returned by `calculateBounds` in the map component. -/
structure MapBounds where
  minLon : ℚ
  maxLon : ℚ
  minLat : ℚ
  maxLat : ℚ
  width : ℚ
  height : ℚ
  centerX : ℚ
  centerY : ℚ
deriving DecidableEq, Repr

/-- Function `interpolateBounds (b1, b2, p)` from the map component: when either
argument is null it returns `b2 || b1`, otherwise it interpolates every
field as `b1.f + (b2.f - b1.f) * p`. -/
def interpolateBounds (b1 b2 : Option MapBounds) (p : ℚ) : Option MapBounds :=
  match b1, b2 with
  | none, b2 => b2
  | some b1, none => some b1
  | some b1, some b2 =>
    some { minLon := b1.minLon + (b2.minLon - b1.minLon) * p
           maxLon := b1.maxLon + (b2.maxLon - b1.maxLon) * p
           minLat := b1.minLat + (b2.minLat - b1.minLat) * p
           maxLat := b1.maxLat + (b2.maxLat - b1.maxLat) * p
           width := b1.width + (b2.width - b1.width) * p
           height := b1.height + (b2.height - b1.height) * p
           centerX := b1.centerX + (b2.centerX - b1.centerX) * p
           centerY := b1.centerY + (b2.centerY - b1.centerY) * p }

/-- Function `ringToPath (ring, bounds, w, h)` from the map component.  The source
builds an SVG path string `"M x y L x y ... Z"`; the embedding keeps the
projected `(x, y)` pairs, in order, and elides the string serialization.
A null bounds gives the empty path (the source returns `""`). -/
def ringToPath (ring : List (ℚ × ℚ)) (bounds : Option MapBounds) (w h : ℚ) :
    List (ℚ × ℚ) :=
  match bounds with
  | none => []
  | some b =>
    let px := b.width * (2 / 100)
    let py := b.height * (2 / 100)
    let minLon := b.minLon - px
    let maxLon := b.maxLon + px
    let minLat := b.minLat - py
    let maxLat := b.maxLat + py
    let effW := maxLon - minLon
    let effH := maxLat - minLat
    let scale := min (w / effW) (h / effH)
    let ox := (w - effW * scale) / 2
    let oy := (h - effH * scale) / 2
    ring.map (fun c => ((c.1 - minLon) * scale + ox, h - ((c.2 - minLat) * scale + oy)))

/-- Function `projectPoint (c, bounds, w, h)` from the map component: the same padded
affine projection applied to a single coordinate, returning `null` for a
null bounds. -/
def projectPoint (c : ℚ × ℚ) (bounds : Option MapBounds) (w h : ℚ) :
    Option (ℚ × ℚ) :=
  match bounds with
  | none => none
  | some b =>
    let px := b.width * (2 / 100)
    let py := b.height * (2 / 100)
    let minLon := b.minLon - px
    let minLat := b.minLat - py
    let effW := b.maxLon + px - minLon
    let effH := b.maxLat + py - minLat
    let scale := min (w / effW) (h / effH)
    let ox := (w - effW * scale) / 2
    let oy := (h - effH * scale) / 2
    some ((c.1 - minLon) * scale + ox, h - ((c.2 - minLat) * scale + oy))

/-! ## calculateBounds (map-visualization component)

`calculateBounds` recursively traverses `geometry.coordinates`, an
arbitrarily nested array structure whose leaves are `[lon, lat]` pairs
(`typeof coords[0] === "number"`).  `Coords` encodes such a nested array:
`pt` is a leaf pair, and an array is either `nil` (empty) or `cons` of its
first element and the rest, so `forEach`-traversal is structural
recursion. -/

/-- Nested GeoJSON coordinate data: a leaf `[lon, lat]` pair, or an array
encoded as an empty/cons list of nested coordinate data. -/
inductive Coords where
  | pt (lon lat : ℚ)
  | nil
  | cons (hd tl : Coords)
deriving DecidableEq, Repr

/-- The four running extrema of `calculateBounds`.  The source initialises
them to `±Infinity`; `none` models that initial state, so the first point
always replaces all four (every comparison against `±Infinity` succeeds). -/
structure RawBox where
  minLon : ℚ
  maxLon : ℚ
  minLat : ℚ
  maxLat : ℚ
deriving DecidableEq, Repr

/-- One leaf step of the `traverse` closure in `calculateBounds`: the four
`if (lon < minLon) ...` updates. -/
def updatePoint (acc : Option RawBox) (lon lat : ℚ) : Option RawBox :=
  match acc with
  | none => some ⟨lon, lon, lat, lat⟩
  | some a =>
    some ⟨if lon < a.minLon then lon else a.minLon,
          if lon > a.maxLon then lon else a.maxLon,
          if lat < a.minLat then lat else a.minLat,
          if lat > a.maxLat then lat else a.maxLat⟩

/-- The recursive `traverse` closure of `calculateBounds`. -/
def traverseCoords (acc : Option RawBox) : Coords → Option RawBox
  | .pt lon lat => updatePoint acc lon lat
  | .nil => acc
  | .cons hd tl => traverseCoords (traverseCoords acc hd) tl

/-- A feature as consumed by `calculateBounds`: only its
`geometry.coordinates` matter. -/
structure MapFeature where
  coords : Coords
deriving DecidableEq, Repr

/-- Function `calculateBounds(features)` from the map component: traverse every
feature's coordinates, return `null` if no point was seen (`minLon ===
Infinity`), else the min/max box with `width`, `height` and center
fields. -/
def calculateBounds (features : List MapFeature) : Option MapBounds :=
  match features.foldl (fun a f => traverseCoords a f.coords) none with
  | none => none
  | some r =>
    some { minLon := r.minLon, maxLon := r.maxLon
           minLat := r.minLat, maxLat := r.maxLat
           width := r.maxLon - r.minLon, height := r.maxLat - r.minLat
           centerX := r.minLon + (r.maxLon - r.minLon) / 2
           centerY := r.minLat + (r.maxLat - r.minLat) / 2 }

/-- All leaf `[lon, lat]` pairs of a nested coordinate structure, in
traversal order (specification-side view of the data). -/
def pointsOf : Coords → List (ℚ × ℚ)
  | .pt lon lat => [(lon, lat)]
  | .nil => []
  | .cons hd tl => pointsOf hd ++ pointsOf tl

/-- All coordinate pairs of a feature list, in traversal order. -/
def allFeaturePoints (features : List MapFeature) : List (ℚ × ℚ) :=
  (features.map (fun f => pointsOf f.coords)).flatten

/-! ## Zoom animation easing (map-visualization component) -/

/-- The `duration` constant of the zoom animation effect (milliseconds). -/
def zoomDuration : ℚ := 600

/-- The `rawProgress` of the zoom animation effect:
`Math.min(elapsed / duration, 1)`. -/
def rawZoomProgress (elapsed : ℚ) : ℚ :=
  min (elapsed / zoomDuration) 1

/-- The piecewise cubic easing of the zoom animation effect:
`p < 0.5 ? 4 * p * p * p : 1 - Math.pow(-2 * p + 2, 3) / 2`. -/
def easeZoom (p : ℚ) : ℚ :=
  if p < 1 / 2 then 4 * p * p * p else 1 - (-2 * p + 2) ^ 3 / 2

/-! ## View level and zoom completion (map-visualization component) -/

/-- The `'state' | 'district'` feature type used by hover and zoom state. -/
inductive FeatureType where
  | state
  | district
deriving DecidableEq, Repr

/-- The `'country' | 'state' | 'district'` view level of the interactive map. -/
inductive ViewLevel where
  | country
  | state
  | district
deriving DecidableEq, Repr

/-- The view-level update run when the zoom animation reaches raw progress 1:
`if (zoomedFeature.type === 'state') setViewLevel('state'); else if
(zoomedFeature.type === 'district') setViewLevel('district');`. -/
def completeZoomView : Option FeatureType → ViewLevel → ViewLevel
  | some .state, _ => .state
  | some .district, _ => .district
  | none, v => v

/-- Which feature types carry `onHoverStart` handlers at each view level, read
off the `MapContent` render: state paths are hoverable only in the India
(country) view, district paths only at the state view; nothing at the
district view. -/
def canHoverType : ViewLevel → FeatureType → Bool
  | .country, .state => true
  | .state, .district => true
  | _, _ => false

/-! ## Hover → zoom timer machine (map-visualization component)

`handleFeatureHoverStart` sets a 40 ms debounce `setTimeout` whose callback
records the hovered feature and sets a 2000 ms dwell `setTimeout` that
triggers the zoom if the same feature is still hovered;
`handleFeatureHoverEnd` clears both timers.  The model uses absolute
natural-number timestamps and fires a due timer at its deadline (the
idealised prompt event loop).  Features are compared with `===` in the
source, so they are modelled by an object-identity number. -/

/-- A pending `setTimeout`: its absolute deadline and the feature (object
identity) and type captured by the callback closure. -/
structure TimerInfo where
  deadline : ℕ
  feat : ℕ
  fty : FeatureType
deriving DecidableEq, Repr

/-- The refs and state touched by the hover machinery:
`debounceTimeoutRef`, `hoverTimeoutRef`, `currentHoveredRef`,
`hoveredFeature`, `zoomedFeature` (only its feature/type, set with
progress 0 when the dwell completes). -/
structure HoverState where
  debounceTimer : Option TimerInfo
  hoverTimer : Option TimerInfo
  currentHovered : Option (ℕ × FeatureType)
  hoveredFeature : Option (ℕ × FeatureType)
  zoomedFeature : Option (ℕ × FeatureType)
deriving DecidableEq, Repr

/-- Initial state: no timers, nothing hovered, nothing zoomed. -/
def initHover : HoverState := ⟨none, none, none, none, none⟩

/-- The constant `HOVER_DELAY = 2000` (ms). -/
def hoverDelay : ℕ := 2000

/-- The constant `DEBOUNCE_DELAY = 40` (ms). -/
def debounceDelay : ℕ := 40

/-- Fire the debounce timeout callback if it is due: record the hovered
feature in `currentHoveredRef` and `hoveredFeature` and schedule the
dwell timeout `HOVER_DELAY` later. -/
def fireDebounceTimer (now : ℕ) (s : HoverState) : HoverState :=
  match s.debounceTimer with
  | some t =>
    if t.deadline ≤ now then
      { s with debounceTimer := none
               currentHovered := some (t.feat, t.fty)
               hoveredFeature := some (t.feat, t.fty)
               hoverTimer := some ⟨t.deadline + hoverDelay, t.feat, t.fty⟩ }
    else s
  | none => s

/-- Fire the dwell timeout callback if it is due: if
`currentHoveredRef.current?.feature === feature` still holds, set the
zoomed feature and clear the hover bookkeeping; otherwise do nothing. -/
def fireHoverTimer (now : ℕ) (s : HoverState) : HoverState :=
  match s.hoverTimer with
  | some t =>
    if t.deadline ≤ now then
      match s.currentHovered with
      | some c =>
        if c.1 = t.feat then
          { s with hoverTimer := none
                   zoomedFeature := some (t.feat, t.fty)
                   hoveredFeature := none
                   currentHovered := none }
        else { s with hoverTimer := none }
      | none => { s with hoverTimer := none }
    else s
  | none => s

/-- Let time advance to `now`, firing due timers in deadline order (the
debounce deadline always precedes the dwell deadline it creates). -/
def advanceTimers (now : ℕ) (s : HoverState) : HoverState :=
  fireHoverTimer now (fireDebounceTimer now s)

/-- External events: `handleFeatureHoverStart` on a feature,
`handleFeatureHoverEnd`, or mere passage of time. -/
inductive HoverEvent where
  | start (feat : ℕ) (fty : FeatureType)
  | stop
  | tick
deriving DecidableEq, Repr

/-- Process one timestamped event: timers due before it fire first, then
the handler runs.  `start` clears both timeouts and schedules a fresh
debounce `DEBOUNCE_DELAY` ahead; `stop` clears both timeouts and the
hover bookkeeping (it does not touch `zoomedFeature`). -/
def hoverStep (s : HoverState) (e : ℕ × HoverEvent) : HoverState :=
  let s1 := advanceTimers e.1 s
  match e.2 with
  | .start f ty =>
    { s1 with debounceTimer := some ⟨e.1 + debounceDelay, f, ty⟩, hoverTimer := none }
  | .stop =>
    { s1 with debounceTimer := none, hoverTimer := none,
              currentHovered := none, hoveredFeature := none }
  | .tick => s1

/-- Run a timestamped event trace. -/
def runHover (s : HoverState) (evs : List (ℕ × HoverEvent)) : HoverState :=
  evs.foldl hoverStep s

/-! ## Chat transcript update (chat page, sendMessage)

`sendMessage` returns early on blank input or while a request is in
flight; otherwise it appends the user message, performs the `/query`
fetch, and appends exactly one assistant message — from the response on
success, or a fixed apology on a thrown fetch error or a non-ok HTTP
status.  The fetches are modelled by their outcome. -/

/-- A chat message's role. -/
inductive ChatRole where
  | user
  | assistant
deriving DecidableEq, Repr

/-- A transcript entry (id and timestamp elided; they never affect the
transcript's shape). -/
structure ChatMessage where
  role : ChatRole
  content : String
deriving DecidableEq, Repr

/-- Outcome of the `fetch(apiUrl + "/query")` call: a parsed response,
a non-ok HTTP status (which `sendMessage` turns into a thrown error), or a
network-level failure. -/
inductive ApiOutcome where
  | ok (response : String)
  | httpError (status : ℕ)
  | fetchFailed
deriving DecidableEq, Repr

/-- The fixed assistant text appended on any failure. -/
def errorReplyText : String :=
  "Sorry, I encountered an error while processing your request. Please make sure the backend API is running and accessible."

/-- Leading and trailing whitespace removal on a character list, modelling
`String.prototype.trim`. -/
def trimChars (l : List Char) : List Char :=
  ((l.dropWhile Char.isWhitespace).reverse.dropWhile Char.isWhitespace).reverse

/-- The `textToSend.trim()` call of the source. -/
def jsTrim (s : String) : String :=
  String.mk (trimChars s.data)

/-- Function `sendMessage`: blank (trims to empty) input or `isLoading` leaves the
transcript unchanged; otherwise the user message is appended, then exactly
one assistant message whose content is the API response on success and the
apology text otherwise. -/
def sendMessage (textToSend : String) (isLoading : Bool)
    (messages : List ChatMessage) (api : ApiOutcome) : List ChatMessage :=
  if jsTrim textToSend = "" ∨ isLoading = true then messages
  else
    let withUser := messages ++ [⟨.user, textToSend⟩]
    match api with
    | .ok response => withUser ++ [⟨.assistant, response⟩]
    | .httpError _ => withUser ++ [⟨.assistant, errorReplyText⟩]
    | .fetchFailed => withUser ++ [⟨.assistant, errorReplyText⟩]

/-! ## Location detection response (api/detect-location)

The matching phase of the POST handler (hardcoded lists plus the
`output.geojson` scan) accumulates `foundLocations`; the handler then
deduplicates them through a `Map` keyed by
`type + "-" + normalizeLocationName(name)` (insertion order preserved) and
responds with status 200, the deduplicated array, and its first element (or
null).  The model takes the accumulated `foundLocations` as input — the
matching phase only determines which list arrives here — and also models
the 400 invalid-body response. -/

/-- The `type` field of a detected location. -/
inductive LocationType where
  | country
  | state
  | district
deriving DecidableEq, Repr

/-- A detected location as produced by the matching phase. -/
structure DetectedLocation where
  ty : LocationType
  name : String
  stateName : Option String
deriving DecidableEq, Repr

/-- Run-collapsing of inner whitespace: `replace(/\s+/g, " ")` applied to an
already-trimmed string; the flag records whether the previous character was
whitespace. -/
def collapseSpaces : List Char → Bool → List Char
  | [], _ => []
  | c :: rest, lastWs =>
    if c.isWhitespace then
      if lastWs then collapseSpaces rest true
      else ' ' :: collapseSpaces rest true
    else c :: collapseSpaces rest false

/-- Function `normalizeLocationName`: lowercase, trim, collapse whitespace runs. -/
def normalizeLocationName (name : String) : String :=
  String.mk (collapseSpaces (trimChars name.toLower.data) false)

/-- Serialization of the location type into the dedup key. -/
def locationTypeText : LocationType → String
  | .country => "country"
  | .state => "state"
  | .district => "district"

/-- The dedup key: the template literal
`type + "-" + normalizeLocationName(name)`. -/
def locationKey (l : DetectedLocation) : String :=
  locationTypeText l.ty ++ "-" ++ normalizeLocationName l.name

/-- The `uniqueLocationsMap` pass: first occurrence of each key wins,
insertion order preserved (`Map.set` / `Array.from(map.values())`). -/
def dedupLocations (found : List DetectedLocation) : List DetectedLocation :=
  (found.foldl
    (fun acc l =>
      if locationKey l ∈ acc.1 then acc
      else (acc.1 ++ [locationKey l], acc.2 ++ [l]))
    (([] : List String), ([] : List DetectedLocation))).2

/-- The JSON body and status of a `/api/detect-location` response. -/
structure DetectResponse where
  status : ℕ
  location : Option DetectedLocation
  locations : List DetectedLocation
deriving DecidableEq, Repr

/-- The response assembly of the POST handler: an invalid body yields 400
with `location: null, locations: []`; otherwise the deduplicated list is
returned with status 200 and `location` its first element or null. -/
def detectLocationResponse (body : Option (List DetectedLocation)) : DetectResponse :=
  match body with
  | none => ⟨400, none, []⟩
  | some found =>
    let uniq := dedupLocations found
    ⟨200, match uniq with | [] => none | x :: _ => some x, uniq⟩

end NeerSetu

namespace NeerSetu

/-! ## Theorems -/

/-- Claim C4. `interpolateBounds` is componentwise linear in `p`: every field of
the result on non-null inputs equals `b1.f + (b2.f - b1.f) * p`, at `p = 0`
the result is `b1`, at `p = 1` it is `b2`, and a null argument makes the
other argument the result. -/
theorem interpolateBounds_linear (a b : MapBounds) (b2 : Option MapBounds) (p : ℚ) :
    interpolateBounds none b2 p = b2 ∧
    interpolateBounds (some a) none p = some a ∧
    interpolateBounds (some a) (some b) p =
      some { minLon := a.minLon + (b.minLon - a.minLon) * p
             maxLon := a.maxLon + (b.maxLon - a.maxLon) * p
             minLat := a.minLat + (b.minLat - a.minLat) * p
             maxLat := a.maxLat + (b.maxLat - a.maxLat) * p
             width := a.width + (b.width - a.width) * p
             height := a.height + (b.height - a.height) * p
             centerX := a.centerX + (b.centerX - a.centerX) * p
             centerY := a.centerY + (b.centerY - a.centerY) * p } ∧
    interpolateBounds (some a) (some b) 0 = some a ∧
    interpolateBounds (some a) (some b) 1 = some b := by
  refine ⟨by cases b2 <;> rfl, rfl, rfl, ?_, ?_⟩
  · simp [interpolateBounds]
  · simp [interpolateBounds]

/-- Claim C9. `projectPoint` and `ringToPath` implement the same padded affine
projection: mapping `projectPoint` over a ring (dropping `none`s) produces
exactly the point list that `ringToPath` computes, and both return an
empty/none result on null bounds. -/
theorem projectPoint_refines_ringToPath (ring : List (ℚ × ℚ)) (c : ℚ × ℚ)
    (bounds : Option MapBounds) (w h : ℚ) :
    ringToPath ring bounds w h = ring.filterMap (fun q => projectPoint q bounds w h) ∧
    ringToPath ring none w h = [] ∧
    projectPoint c none w h = none := by
  refine ⟨?_, rfl, rfl⟩
  cases bounds with
  | none => simp [ringToPath, projectPoint]
  | some b =>
    simp only [ringToPath, projectPoint]
    induction ring with
    | nil => rfl
    | cons q qs ih => simp_all [List.filterMap_cons]

/-- Claim C5. The zoom animation's raw progress `min(elapsed / 600, 1)` equals 1
exactly when at least 600 ms have elapsed, and the piecewise cubic easing is
0 at 0, 1 at 1, and monotone nondecreasing on `[0, 1]`. -/
theorem zoom_easing_spec (e p q : ℚ) :
    (rawZoomProgress e = 1 ↔ 600 ≤ e) ∧
    easeZoom 0 = 0 ∧
    easeZoom 1 = 1 ∧
    (0 ≤ p → p ≤ q → q ≤ 1 → easeZoom p ≤ easeZoom q) := by
  refine ⟨?_, by norm_num [easeZoom], by norm_num [easeZoom], ?_⟩
  · unfold rawZoomProgress zoomDuration
    rw [min_eq_right_iff]
    constructor <;> intro hh <;> linarith
  · intro hp hpq hq
    unfold easeZoom
    split_ifs with h1 h2 h2
    · have hfac : 0 ≤ p * p + p * q + q * q := by nlinarith [sq_nonneg (p + q), sq_nonneg p, sq_nonneg q]
      nlinarith [mul_nonneg (sub_nonneg.2 hpq) hfac]
    · have hu : 0 ≤ -2 * q + 2 := by linarith
      have hu1 : -2 * q + 2 ≤ 1 := by linarith
      have hpos2 : 0 ≤ 1 + (-2 * q + 2) + (-2 * q + 2) * (-2 * q + 2) := by
        nlinarith [mul_nonneg hu hu]
      have hcube : (-2 * q + 2) ^ 3 ≤ 1 := by
        nlinarith [mul_nonneg (sub_nonneg.2 hu1) hpos2]
      have hq2 : 0 < p * p + p / 2 + 1 / 4 := by nlinarith [sq_nonneg (p + 1 / 4)]
      have hlt : 4 * p * p * p < 1 / 2 := by
        nlinarith [mul_pos (by linarith : (0:ℚ) < 1 / 2 - p) hq2]
      linarith
    · linarith
    · have hu : 0 ≤ -2 * q + 2 := by linarith
      have hv : -2 * q + 2 ≤ -2 * p + 2 := by linarith
      have hfac : 0 ≤ (-2 * q + 2) * (-2 * q + 2) + (-2 * q + 2) * (-2 * p + 2) + (-2 * p + 2) * (-2 * p + 2) := by
        nlinarith
      nlinarith [mul_nonneg (sub_nonneg.2 hv) hfac]

/-- Witness for `zoom_easing_spec` at `e = 600`, `p = 1/4`, `q = 3/4`. -/
theorem zoom_easing_spec_witness :
    (rawZoomProgress 600 = 1 ↔ (600 : ℚ) ≤ 600) ∧
    easeZoom 0 = 0 ∧
    easeZoom 1 = 1 ∧
    easeZoom (1 / 4) ≤ easeZoom (3 / 4) :=
  ⟨(zoom_easing_spec 600 (1 / 4) (3 / 4)).1,
   (zoom_easing_spec 600 (1 / 4) (3 / 4)).2.1,
   (zoom_easing_spec 600 (1 / 4) (3 / 4)).2.2.1,
   (zoom_easing_spec 600 (1 / 4) (3 / 4)).2.2.2 (by norm_num) (by norm_num) (by norm_num)⟩

/-- Range of the one-dimensional padded affine map used by `ringToPath`:
with `0 ≤ A ≤ eW`, a nonnegative scale `s` and `eW * s ≤ w`, the image
`A * s + (w - eW * s) / 2` stays inside `[0, w]`. -/
theorem affine_component_range (A eW w s : ℚ) (hA0 : 0 ≤ A) (hAW : A ≤ eW)
    (hs0 : 0 ≤ s) (hsW : eW * s ≤ w) :
    0 ≤ A * s + (w - eW * s) / 2 ∧ A * s + (w - eW * s) / 2 ≤ w := by
  constructor
  · nlinarith [mul_nonneg hA0 hs0]
  · nlinarith [mul_le_mul_of_nonneg_right hAW hs0]

/-- Claim C2. For a non-null bounds with positive width and height, a
nonnegative canvas and a ring whose points lie inside the bounds box,
`ringToPath` is the padded (2% per side) uniform-scale Y-flipped affine map,
and every projected point lands inside `[0, w] × [0, h]`. -/
theorem ringToPath_inside_canvas (b : MapBounds) (ring : List (ℚ × ℚ)) (w h : ℚ)
    (hbw : 0 < b.width) (hbh : 0 < b.height) (hw : 0 ≤ w) (hh : 0 ≤ h)
    (hring : ∀ p ∈ ring,
      b.minLon ≤ p.1 ∧ p.1 ≤ b.maxLon ∧ b.minLat ≤ p.2 ∧ p.2 ≤ b.maxLat) :
    (ringToPath ring (some b) w h =
      (let px := b.width * (2 / 100)
       let py := b.height * (2 / 100)
       let effW := b.maxLon + px - (b.minLon - px)
       let effH := b.maxLat + py - (b.minLat - py)
       let scale := min (w / effW) (h / effH)
       let ox := (w - effW * scale) / 2
       let oy := (h - effH * scale) / 2
       ring.map (fun c =>
         ((c.1 - (b.minLon - px)) * scale + ox,
          h - ((c.2 - (b.minLat - py)) * scale + oy))))) ∧
    ∀ q ∈ ringToPath ring (some b) w h, 0 ≤ q.1 ∧ q.1 ≤ w ∧ 0 ≤ q.2 ∧ q.2 ≤ h := by
  refine ⟨rfl, ?_⟩
  intro q hq
  simp only [ringToPath, List.mem_map] at hq
  obtain ⟨c, hc, rfl⟩ := hq
  obtain ⟨hc1, hc2, hc3, hc4⟩ := hring c hc
  set px := b.width * (2 / 100) with hpx
  set py := b.height * (2 / 100) with hpy
  set eW := b.maxLon + px - (b.minLon - px) with heW
  set eH := b.maxLat + py - (b.minLat - py) with heH
  set s := min (w / eW) (h / eH) with hs
  have hpx0 : 0 < px := by rw [hpx]; exact mul_pos hbw (by norm_num)
  have hpy0 : 0 < py := by rw [hpy]; exact mul_pos hbh (by norm_num)
  have heW2 : eW = (b.maxLon - b.minLon) + 2 * px := by rw [heW]; ring
  have heH2 : eH = (b.maxLat - b.minLat) + 2 * py := by rw [heH]; ring
  have heWpos : 0 < eW := by rw [heW2]; linarith
  have heHpos : 0 < eH := by rw [heH2]; linarith
  have hs0 : 0 ≤ s := by
    rw [hs]
    exact le_min (div_nonneg hw heWpos.le) (div_nonneg hh heHpos.le)
  have hsW : eW * s ≤ w := by
    have hle : s ≤ w / eW := by rw [hs]; exact min_le_left _ _
    rw [mul_comm]
    exact (le_div_iff₀ heWpos).1 hle
  have hsH : eH * s ≤ h := by
    have hle : s ≤ h / eH := by rw [hs]; exact min_le_right _ _
    rw [mul_comm]
    exact (le_div_iff₀ heHpos).1 hle
  have hA0 : 0 ≤ c.1 - (b.minLon - px) := by linarith
  have hAW : c.1 - (b.minLon - px) ≤ eW := by rw [heW2]; linarith
  have hB0 : 0 ≤ c.2 - (b.minLat - py) := by linarith
  have hBH : c.2 - (b.minLat - py) ≤ eH := by rw [heH2]; linarith
  have hx := affine_component_range (c.1 - (b.minLon - px)) eW w s hA0 hAW hs0 hsW
  have hy := affine_component_range (c.2 - (b.minLat - py)) eH h s hB0 hBH hs0 hsH
  exact ⟨hx.1, hx.2, by linarith [hy.2], by linarith [hy.1]⟩

/-- Witness for `ringToPath_inside_canvas` on the box `[0, 10] × [0, 10]`
mapped to an 800 × 600 canvas: the projection takes its stated padded
affine form. -/
theorem ringToPath_inside_canvas_witness :
    ringToPath [((0 : ℚ), (0 : ℚ)), (10, 10), (3, 7)]
        (some ⟨0, 10, 0, 10, 10, 10, 5, 5⟩) 800 600 =
      (let px := (10 : ℚ) * (2 / 100)
       let py := (10 : ℚ) * (2 / 100)
       let effW := 10 + px - (0 - px)
       let effH := 10 + py - (0 - py)
       let scale := min (800 / effW) (600 / effH)
       let ox := (800 - effW * scale) / 2
       let oy := (600 - effH * scale) / 2
       [((0 : ℚ), (0 : ℚ)), (10, 10), (3, 7)].map (fun c =>
         ((c.1 - (0 - px)) * scale + ox,
          600 - ((c.2 - (0 - py)) * scale + oy)))) :=
  (ringToPath_inside_canvas ⟨0, 10, 0, 10, 10, 10, 5, 5⟩
    [((0 : ℚ), (0 : ℚ)), (10, 10), (3, 7)] 800 600
    (by norm_num) (by norm_num) (by norm_num) (by norm_num)
    (by intro p hp; fin_cases hp <;> norm_num)).1

/-- Claim C6. Completing a zoom on a state feature sets the view level to
`state`, completing one on a district feature sets it to `district`, and a
zoom can only be initiated (a hover handler exists) on a state feature at the
country view or on a district feature at the state view — so completions
descend exactly country → state → district. -/
theorem zoom_completion_descends (v : ViewLevel) (ty : FeatureType) :
    completeZoomView (some .state) v = .state ∧
    completeZoomView (some .district) v = .district ∧
    (canHoverType v ty = true →
      (v = .country ∧ ty = .state ∧ completeZoomView (some ty) v = .state) ∨
      (v = .state ∧ ty = .district ∧ completeZoomView (some ty) v = .district)) := by
  refine ⟨rfl, rfl, ?_⟩
  cases v <;> cases ty <;> simp [canHoverType, completeZoomView]

/-- Witness for `zoom_completion_descends` at the country view hovering a
state feature. -/
theorem zoom_completion_descends_witness :
    (ViewLevel.country = ViewLevel.country ∧ FeatureType.state = FeatureType.state ∧
      completeZoomView (some FeatureType.state) ViewLevel.country = ViewLevel.state) ∨
    (ViewLevel.country = ViewLevel.state ∧ FeatureType.state = FeatureType.district ∧
      completeZoomView (some FeatureType.state) ViewLevel.country = ViewLevel.district) :=
  (zoom_completion_descends ViewLevel.country FeatureType.state).2.2 (by decide)

/-- The source's `if (v < m) m = v` update computes the minimum. -/
theorem if_lt_eq_min (m v : ℚ) : (if v < m then v else m) = min m v := by
  rcases lt_or_le v m with h | h
  · rw [if_pos h, min_eq_right h.le]
  · rw [if_neg (not_lt.2 h), min_eq_left h]

/-- The source's `if (v > m) m = v` update computes the maximum. -/
theorem if_gt_eq_max (m v : ℚ) : (if v > m then v else m) = max m v := by
  rcases lt_or_le m v with h | h
  · rw [if_pos h, max_eq_right h.le]
  · rw [if_neg (not_lt.2 h), max_eq_left h]

/-- Applying `updatePoint` on a live accumulator computes componentwise min/max. -/
theorem updatePoint_min_max (a : RawBox) (lon lat : ℚ) :
    updatePoint (some a) lon lat =
      some ⟨min a.minLon lon, max a.maxLon lon, min a.minLat lat, max a.maxLat lat⟩ := by
  simp only [updatePoint, if_lt_eq_min, if_gt_eq_max]

/-- Function `traverseCoords` folds `updatePoint` over the leaf points in traversal
order. -/
theorem traverseCoords_eq_foldl (c : Coords) :
    ∀ acc, traverseCoords acc c =
      (pointsOf c).foldl (fun a p => updatePoint a p.1 p.2) acc := by
  induction c with
  | pt lon lat => intro acc; rfl
  | nil => intro acc; rfl
  | cons hd tl ih1 ih2 =>
    intro acc
    simp only [traverseCoords, pointsOf, List.foldl_append]
    rw [ih1, ih2]

/-- Folding the whole feature list equals folding over all collected
points. -/
theorem features_foldl_eq (features : List MapFeature) :
    ∀ acc, features.foldl (fun a f => traverseCoords a f.coords) acc =
      (allFeaturePoints features).foldl (fun a p => updatePoint a p.1 p.2) acc := by
  induction features with
  | nil => intro acc; rfl
  | cons f fs ih =>
    intro acc
    rw [List.foldl_cons, ih, traverseCoords_eq_foldl,
      show allFeaturePoints (f :: fs) = pointsOf f.coords ++ allFeaturePoints fs from by
        simp [allFeaturePoints],
      List.foldl_append]

/-- Folding `min` over a list yields an element of `a :: l` that bounds all
of `a :: l` from below. -/
theorem foldl_min_spec (l : List ℚ) :
    ∀ a : ℚ, l.foldl min a ∈ a :: l ∧ ∀ x ∈ a :: l, l.foldl min a ≤ x := by
  induction l with
  | nil => intro a; simp
  | cons b bs ih =>
    intro a
    obtain ⟨hmem, hle⟩ := ih (min a b)
    constructor
    · simp only [List.foldl_cons]
      rcases List.mem_cons.1 hmem with h | h
      · rcases min_choice a b with hc | hc
        · rw [h, hc]; exact List.mem_cons_self _ _
        · rw [h, hc]; exact List.mem_cons_of_mem _ (List.mem_cons_self _ _)
      · exact List.mem_cons_of_mem _ (List.mem_cons_of_mem _ h)
    · intro x hx
      simp only [List.mem_cons] at hx
      simp only [List.foldl_cons]
      rcases hx with rfl | rfl | hx
      · exact le_trans (hle _ (List.mem_cons_self _ _)) (min_le_left _ _)
      · exact le_trans (hle _ (List.mem_cons_self _ _)) (min_le_right _ _)
      · exact hle x (List.mem_cons_of_mem _ hx)

/-- Folding `max` over a list yields an element of `a :: l` that bounds all
of `a :: l` from above. -/
theorem foldl_max_spec (l : List ℚ) :
    ∀ a : ℚ, l.foldl max a ∈ a :: l ∧ ∀ x ∈ a :: l, x ≤ l.foldl max a := by
  induction l with
  | nil => intro a; simp
  | cons b bs ih =>
    intro a
    obtain ⟨hmem, hle⟩ := ih (max a b)
    constructor
    · simp only [List.foldl_cons]
      rcases List.mem_cons.1 hmem with h | h
      · rcases max_choice a b with hc | hc
        · rw [h, hc]; exact List.mem_cons_self _ _
        · rw [h, hc]; exact List.mem_cons_of_mem _ (List.mem_cons_self _ _)
      · exact List.mem_cons_of_mem _ (List.mem_cons_of_mem _ h)
    · intro x hx
      simp only [List.mem_cons] at hx
      simp only [List.foldl_cons]
      rcases hx with rfl | rfl | hx
      · exact le_trans (le_max_left _ _) (hle _ (List.mem_cons_self _ _))
      · exact le_trans (le_max_right _ _) (hle _ (List.mem_cons_self _ _))
      · exact hle x (List.mem_cons_of_mem _ hx)

/-- Folding `updatePoint` from a live accumulator never dies and computes
the running min/max of each coordinate. -/
theorem foldl_updatePoint_some (pts : List (ℚ × ℚ)) :
    ∀ a : RawBox, ∃ r : RawBox,
      pts.foldl (fun acc p => updatePoint acc p.1 p.2) (some a) = some r ∧
      r.minLon = (pts.map Prod.fst).foldl min a.minLon ∧
      r.maxLon = (pts.map Prod.fst).foldl max a.maxLon ∧
      r.minLat = (pts.map Prod.snd).foldl min a.minLat ∧
      r.maxLat = (pts.map Prod.snd).foldl max a.maxLat := by
  induction pts with
  | nil => intro a; exact ⟨a, rfl, rfl, rfl, rfl, rfl⟩
  | cons p ps ih =>
    intro a
    obtain ⟨r, hr, h1, h2, h3, h4⟩ :=
      ih ⟨min a.minLon p.1, max a.maxLon p.1, min a.minLat p.2, max a.maxLat p.2⟩
    refine ⟨r, ?_, ?_, ?_, ?_, ?_⟩ <;>
      simp only [List.foldl_cons, List.map_cons, updatePoint_min_max]
    · exact hr
    · exact h1
    · exact h2
    · exact h3
    · exact h4

/-- Claim C7. `calculateBounds` returns `null` exactly when the features hold
no coordinate pair; otherwise `minLon`/`maxLon`/`minLat`/`maxLat` are the
exact extrema over all points at any nesting depth, `width`/`height` are the
box extents, and `centerX`/`centerY` are the box midpoints. -/
theorem calculateBounds_extrema (features : List MapFeature) :
    (allFeaturePoints features = [] → calculateBounds features = none) ∧
    (allFeaturePoints features ≠ [] → ∃ mb, calculateBounds features = some mb ∧
      (mb.minLon ∈ (allFeaturePoints features).map Prod.fst ∧
        ∀ x ∈ (allFeaturePoints features).map Prod.fst, mb.minLon ≤ x) ∧
      (mb.maxLon ∈ (allFeaturePoints features).map Prod.fst ∧
        ∀ x ∈ (allFeaturePoints features).map Prod.fst, x ≤ mb.maxLon) ∧
      (mb.minLat ∈ (allFeaturePoints features).map Prod.snd ∧
        ∀ x ∈ (allFeaturePoints features).map Prod.snd, mb.minLat ≤ x) ∧
      (mb.maxLat ∈ (allFeaturePoints features).map Prod.snd ∧
        ∀ x ∈ (allFeaturePoints features).map Prod.snd, x ≤ mb.maxLat) ∧
      mb.width = mb.maxLon - mb.minLon ∧
      mb.height = mb.maxLat - mb.minLat ∧
      mb.centerX = (mb.minLon + mb.maxLon) / 2 ∧
      mb.centerY = (mb.minLat + mb.maxLat) / 2) := by
  constructor
  · intro hnil
    unfold calculateBounds
    rw [features_foldl_eq, hnil]
    rfl
  · intro hne
    rcases hpts : allFeaturePoints features with _ | ⟨p, ps⟩
    · exact absurd hpts hne
    obtain ⟨r, hr, h1, h2, h3, h4⟩ := foldl_updatePoint_some ps ⟨p.1, p.1, p.2, p.2⟩
    have hfold : features.foldl (fun a f => traverseCoords a f.coords) none = some r := by
      rw [features_foldl_eq, hpts]
      simpa [updatePoint] using hr
    have hcb : calculateBounds features =
        some ⟨r.minLon, r.maxLon, r.minLat, r.maxLat, r.maxLon - r.minLon,
          r.maxLat - r.minLat, r.minLon + (r.maxLon - r.minLon) / 2,
          r.minLat + (r.maxLat - r.minLat) / 2⟩ := by
      unfold calculateBounds
      rw [hfold]
    refine ⟨_, hcb, ?_, ?_, ?_, ?_, rfl, rfl, by ring_nf, by ring_nf⟩
    · simpa [hpts, h1] using foldl_min_spec (ps.map Prod.fst) p.1
    · simpa [hpts, h2] using foldl_max_spec (ps.map Prod.fst) p.1
    · simpa [hpts, h3] using foldl_min_spec (ps.map Prod.snd) p.2
    · simpa [hpts, h4] using foldl_max_spec (ps.map Prod.snd) p.2

/-- Witness for `calculateBounds_extrema` on one feature with two leaf
points. -/
theorem calculateBounds_extrema_witness :
    ∃ mb, calculateBounds [⟨Coords.cons (Coords.pt 1 2) (Coords.cons (Coords.pt 3 1) Coords.nil)⟩] = some mb ∧
      (mb.minLon ∈ (allFeaturePoints [⟨Coords.cons (Coords.pt 1 2) (Coords.cons (Coords.pt 3 1) Coords.nil)⟩]).map Prod.fst ∧
        ∀ x ∈ (allFeaturePoints [⟨Coords.cons (Coords.pt 1 2) (Coords.cons (Coords.pt 3 1) Coords.nil)⟩]).map Prod.fst, mb.minLon ≤ x) ∧
      (mb.maxLon ∈ (allFeaturePoints [⟨Coords.cons (Coords.pt 1 2) (Coords.cons (Coords.pt 3 1) Coords.nil)⟩]).map Prod.fst ∧
        ∀ x ∈ (allFeaturePoints [⟨Coords.cons (Coords.pt 1 2) (Coords.cons (Coords.pt 3 1) Coords.nil)⟩]).map Prod.fst, x ≤ mb.maxLon) ∧
      (mb.minLat ∈ (allFeaturePoints [⟨Coords.cons (Coords.pt 1 2) (Coords.cons (Coords.pt 3 1) Coords.nil)⟩]).map Prod.snd ∧
        ∀ x ∈ (allFeaturePoints [⟨Coords.cons (Coords.pt 1 2) (Coords.cons (Coords.pt 3 1) Coords.nil)⟩]).map Prod.snd, mb.minLat ≤ x) ∧
      (mb.maxLat ∈ (allFeaturePoints [⟨Coords.cons (Coords.pt 1 2) (Coords.cons (Coords.pt 3 1) Coords.nil)⟩]).map Prod.snd ∧
        ∀ x ∈ (allFeaturePoints [⟨Coords.cons (Coords.pt 1 2) (Coords.cons (Coords.pt 3 1) Coords.nil)⟩]).map Prod.snd, x ≤ mb.maxLat) ∧
      mb.width = mb.maxLon - mb.minLon ∧
      mb.height = mb.maxLat - mb.minLat ∧
      mb.centerX = (mb.minLon + mb.maxLon) / 2 ∧
      mb.centerY = (mb.minLat + mb.maxLat) / 2 :=
  (calculateBounds_extrema
    [⟨Coords.cons (Coords.pt 1 2) (Coords.cons (Coords.pt 3 1) Coords.nil)⟩]).2
    (by decide)

/-- Claim C3. From the idle state, a hover on feature `f` zooms exactly when
the pointer dwells `DEBOUNCE_DELAY + HOVER_DELAY = 40 + 2000` ms on it; a
`handleFeatureHoverEnd` before the dwell deadline clears the timers so no
zoom is ever triggered, and a hover that moves to a different feature before
the dwell deadline never triggers a zoom for the first feature. -/
theorem hover_zoom_timing (f g : ℕ) (ty ty2 ty3 : FeatureType) (t t1 t2 : ℕ) :
    (t ≤ t2 →
      (runHover initHover [(t, .start f ty), (t2, .tick)]).zoomedFeature =
        if t + debounceDelay + hoverDelay ≤ t2 then some (f, ty) else none) ∧
    (t ≤ t1 → t1 ≤ t2 → t1 < t + debounceDelay + hoverDelay →
      (runHover initHover [(t, .start f ty), (t1, .stop), (t2, .tick)]).zoomedFeature =
        none) ∧
    (t ≤ t1 → t1 ≤ t2 → t1 < t + debounceDelay + hoverDelay → g ≠ f →
      (runHover initHover
          [(t, .start f ty), (t1, .start g ty2), (t2, .tick)]).zoomedFeature ≠
        some (f, ty3)) := by
  have e1 : hoverStep initHover (t, .start f ty) =
      ⟨some ⟨t + debounceDelay, f, ty⟩, none, none, none, none⟩ := rfl
  refine ⟨?_, ?_, ?_⟩
  · intro ht
    simp only [runHover, List.foldl_cons, List.foldl_nil, e1]
    simp only [hoverStep, advanceTimers, fireDebounceTimer, fireHoverTimer,
      hoverDelay, debounceDelay]
    rcases Nat.lt_or_ge t2 (t + 40) with hA | hA
    · simp [show ¬(t + 40 ≤ t2) from by omega, show ¬(t + 40 + 2000 ≤ t2) from by omega]
    · rcases Nat.lt_or_ge t2 (t + 40 + 2000) with hB | hB
      · simp [hA, show ¬(t + 40 + 2000 ≤ t2) from by omega]
      · simp [show t + 40 ≤ t2 from by omega, hB]
  · intro ht1 ht2 hlt
    simp only [runHover, List.foldl_cons, List.foldl_nil, e1]
    simp only [hoverStep, advanceTimers, fireDebounceTimer, fireHoverTimer,
      hoverDelay, debounceDelay] at hlt ⊢
    rcases Nat.lt_or_ge t1 (t + 40) with hA | hA
    · simp [show ¬(t + 40 ≤ t1) from by omega]
    · simp [hA, show ¬(t + 40 + 2000 ≤ t1) from by omega]
  · intro ht1 ht2 hlt hgf
    simp only [runHover, List.foldl_cons, List.foldl_nil, e1]
    simp only [hoverStep, advanceTimers, fireDebounceTimer, fireHoverTimer,
      hoverDelay, debounceDelay] at hlt ⊢
    rcases Nat.lt_or_ge t1 (t + 40) with hA | hA <;>
      rcases Nat.lt_or_ge t2 (t1 + 40) with hB | hB <;>
      rcases Nat.lt_or_ge t2 (t1 + 40 + 2000) with hC | hC
    · simp [show ¬(t + 40 ≤ t1) from by omega, show ¬(t1 + 40 ≤ t2) from by omega]
    · simp [show ¬(t + 40 ≤ t1) from by omega, show ¬(t1 + 40 ≤ t2) from by omega]
    · simp [show ¬(t + 40 ≤ t1) from by omega, show t1 + 40 ≤ t2 from hB,
        show ¬(t1 + 40 + 2000 ≤ t2) from by omega]
    · simp [show ¬(t + 40 ≤ t1) from by omega, show t1 + 40 ≤ t2 from hB,
        show t1 + 40 + 2000 ≤ t2 from hC, hgf]
    · simp [show t + 40 ≤ t1 from hA, show ¬(t + 40 + 2000 ≤ t1) from by omega,
        show ¬(t1 + 40 ≤ t2) from by omega]
    · simp [show t + 40 ≤ t1 from hA, show ¬(t + 40 + 2000 ≤ t1) from by omega,
        show ¬(t1 + 40 ≤ t2) from by omega]
    · simp [show t + 40 ≤ t1 from hA, show ¬(t + 40 + 2000 ≤ t1) from by omega,
        show t1 + 40 ≤ t2 from hB, show ¬(t1 + 40 + 2000 ≤ t2) from by omega]
    · simp [show t + 40 ≤ t1 from hA, show ¬(t + 40 + 2000 ≤ t1) from by omega,
        show t1 + 40 ≤ t2 from hB, show t1 + 40 + 2000 ≤ t2 from hC, hgf]

/-- Witness for `hover_zoom_timing`: feature 0 hovered at time 0 zooms at
2040 ms; a hover end at 100 ms prevents it; moving to feature 1 at 100 ms
prevents a zoom of feature 0. -/
theorem hover_zoom_timing_witness :
    ((runHover initHover [(0, .start 0 .state), (2040, .tick)]).zoomedFeature =
      if 0 + debounceDelay + hoverDelay ≤ 2040 then some (0, .state) else none) ∧
    ((runHover initHover
        [(0, .start 0 .state), (100, .stop), (5000, .tick)]).zoomedFeature = none) ∧
    ((runHover initHover
        [(0, .start 0 .state), (100, .start 1 .state), (5000, .tick)]).zoomedFeature ≠
      some (0, .state)) :=
  ⟨(hover_zoom_timing 0 1 .state .state .state 0 100 2040).1 (by decide),
   (hover_zoom_timing 0 1 .state .state .state 0 100 5000).2.1
     (by decide) (by decide) (by decide),
   (hover_zoom_timing 0 1 .state .state .state 0 100 5000).2.2
     (by decide) (by decide) (by decide) (by decide)⟩

/-- Claim C8. `sendMessage` leaves the transcript unchanged on blank input or
while loading; otherwise it appends the user message and exactly one
assistant message — the API response on success, the fixed apology on an
HTTP or fetch failure — growing the transcript by exactly two entries. -/
theorem sendMessage_transcript (text : String) (isLoading : Bool)
    (msgs : List ChatMessage) (api : ApiOutcome) :
    (jsTrim text = "" ∨ isLoading = true →
      sendMessage text isLoading msgs api = msgs) ∧
    (jsTrim text ≠ "" → isLoading = false →
      (∀ resp, api = .ok resp →
        sendMessage text isLoading msgs api =
          msgs ++ [⟨.user, text⟩, ⟨.assistant, resp⟩]) ∧
      ((∀ resp, api ≠ .ok resp) →
        sendMessage text isLoading msgs api =
          msgs ++ [⟨.user, text⟩, ⟨.assistant, errorReplyText⟩]) ∧
      (sendMessage text isLoading msgs api).length = msgs.length + 2) := by
  constructor
  · intro hcond
    rw [sendMessage, if_pos hcond]
  · intro htext hload
    have hcond : ¬(jsTrim text = "" ∨ isLoading = true) := by
      subst hload
      simp [htext]
    refine ⟨?_, ?_, ?_⟩
    · intro resp hresp
      subst hresp
      rw [sendMessage, if_neg hcond]
      simp
    · intro hne
      rw [sendMessage, if_neg hcond]
      cases api with
      | ok resp => exact absurd rfl (hne resp)
      | httpError s => simp
      | fetchFailed => simp
    · rw [sendMessage, if_neg hcond]
      cases api <;> simp

/-- Witness for `sendMessage_transcript` with a non-blank question, no
request in flight and a successful API response. -/
theorem sendMessage_transcript_witness :
    sendMessage "hi" false [] (.ok "answer") =
      [⟨.user, "hi"⟩, ⟨.assistant, "answer"⟩] ∧
    (sendMessage "hi" false [] (.ok "answer")).length =
      ([] : List ChatMessage).length + 2 :=
  ⟨by
    have h := (sendMessage_transcript "hi" false [] (.ok "answer")).2
      (by decide) rfl
    simpa using h.1 "answer" rfl,
   ((sendMessage_transcript "hi" false [] (.ok "answer")).2
      (by decide) rfl).2.2⟩

/-- The dedup fold preserves: every emitted location's key is in the seen
set, and emitted keys are pairwise distinct. -/
theorem dedupLocations_fold_invariant (found : List DetectedLocation) :
    ∀ (seen : List String) (out : List DetectedLocation),
      (∀ l ∈ out, locationKey l ∈ seen) →
      out.Pairwise (fun a b => locationKey a ≠ locationKey b) →
      (∀ l ∈ (found.foldl
          (fun acc l =>
            if locationKey l ∈ acc.1 then acc
            else (acc.1 ++ [locationKey l], acc.2 ++ [l])) (seen, out)).2,
        locationKey l ∈ (found.foldl
          (fun acc l =>
            if locationKey l ∈ acc.1 then acc
            else (acc.1 ++ [locationKey l], acc.2 ++ [l])) (seen, out)).1) ∧
      (found.foldl
          (fun acc l =>
            if locationKey l ∈ acc.1 then acc
            else (acc.1 ++ [locationKey l], acc.2 ++ [l])) (seen, out)).2.Pairwise
        (fun a b => locationKey a ≠ locationKey b) := by
  induction found with
  | nil => intro seen out h1 h2; exact ⟨h1, h2⟩
  | cons l ls ih =>
    intro seen out h1 h2
    simp only [List.foldl_cons]
    by_cases hmem : locationKey l ∈ seen
    · rw [if_pos hmem]
      exact ih seen out h1 h2
    · rw [if_neg hmem]
      refine ih (seen ++ [locationKey l]) (out ++ [l]) ?_ ?_
      · intro m hm
        rcases List.mem_append.1 hm with hm | hm
        · exact List.mem_append_left _ (h1 m hm)
        · simp only [List.mem_singleton] at hm
          subst hm
          exact List.mem_append_right _ (List.mem_singleton_self _)
      · rw [List.pairwise_append]
        refine ⟨h2, List.pairwise_singleton _ _, ?_⟩
        intro a ha b hb
        simp only [List.mem_singleton] at hb
        subst hb
        intro hk
        exact hmem (hk ▸ h1 a ha)

/-- Claim C10. Every status-200 response of the detect-location POST handler
has a `locations` array with no two entries sharing both a type and a
normalized name, and `location` is its first element (null exactly when it
is empty). -/
theorem detect_response_unique (body : Option (List DetectedLocation))
    (r : DetectResponse) (hr : detectLocationResponse body = r)
    (h200 : r.status = 200) :
    r.locations.Pairwise (fun a b =>
      ¬(a.ty = b.ty ∧
        normalizeLocationName a.name = normalizeLocationName b.name)) ∧
    r.location = r.locations.head? := by
  cases body with
  | none =>
    subst hr
    simp [detectLocationResponse] at h200
  | some found =>
    subst hr
    have hpair :=
      ((dedupLocations_fold_invariant found) [] []
        (by intro l hl; cases hl) List.Pairwise.nil).2
    constructor
    · refine List.Pairwise.imp ?_ hpair
      intro a b hne hab
      apply hne
      unfold locationKey
      rw [hab.1, hab.2]
    · show (match dedupLocations found with
        | [] => none
        | x :: _ => some x) = (dedupLocations found).head?
      cases dedupLocations found <;> rfl

/-- Witness for `detect_response_unique` on a two-location body. -/
theorem detect_response_unique_witness :
    (detectLocationResponse
        (some [⟨.state, "Gujarat", none⟩,
               ⟨.district, "Surat", some "Gujarat"⟩])).locations.Pairwise
      (fun a b =>
        ¬(a.ty = b.ty ∧
          normalizeLocationName a.name = normalizeLocationName b.name)) ∧
    (detectLocationResponse
        (some [⟨.state, "Gujarat", none⟩,
               ⟨.district, "Surat", some "Gujarat"⟩])).location =
      (detectLocationResponse
        (some [⟨.state, "Gujarat", none⟩,
               ⟨.district, "Surat", some "Gujarat"⟩])).locations.head? :=
  detect_response_unique
    (some [⟨.state, "Gujarat", none⟩, ⟨.district, "Surat", some "Gujarat"⟩])
    _ rfl rfl

/-- The `reduce` sum over first components equals the mapped list sum. -/
theorem foldl_add_fst (l : List (ℚ × ℚ)) :
    ∀ a : ℚ, l.foldl (fun s c => s + c.1) a = a + (l.map Prod.fst).sum := by
  induction l with
  | nil => intro a; simp
  | cons p ps ih =>
    intro a
    simp only [List.foldl_cons, List.map_cons, List.sum_cons, ih]
    ring

/-- The `reduce` sum over second components equals the mapped list sum. -/
theorem foldl_add_snd (l : List (ℚ × ℚ)) :
    ∀ a : ℚ, l.foldl (fun s c => s + c.2) a = a + (l.map Prod.snd).sum := by
  induction l with
  | nil => intro a; simp
  | cons p ps ih =>
    intro a
    simp only [List.foldl_cons, List.map_cons, List.sum_cons, ih]
    ring

/-- The district filter predicate holds exactly when the district has a
centroid contained in some state feature. -/
theorem districtMatches_iff (S : List GeoFeature) (d : GeoFeature) :
    districtMatches S d = true ↔
      ∃ c, calculateFeatureCentroid d = some c ∧
        ∃ s ∈ S, isPointInFeature c s = true := by
  unfold districtMatches
  cases hc : calculateFeatureCentroid d with
  | none => simp
  | some c => simp [List.any_eq_true]

/-- Claim C1. On the state-level branch, the attached `districtsGeoJson`
contains exactly the district features whose centroid — the mean of the
outer-ring vertices — lies in some state feature by even-odd ray casting,
and the field is omitted exactly when no district centroid is contained in
any state feature. -/
theorem geojson_district_filter (S D : List GeoFeature) (d : GeoFeature) :
    (∀ r, stateDistrictsGeoJson S D = some r →
      (d ∈ r ↔ d ∈ D ∧ ∃ c, calculateFeatureCentroid d = some c ∧
        ∃ s ∈ S, isPointInFeature c s = true)) ∧
    (stateDistrictsGeoJson S D = none ↔
      ∀ d2 ∈ D, ¬∃ c, calculateFeatureCentroid d2 = some c ∧
        ∃ s ∈ S, isPointInFeature c s = true) ∧
    (∀ c, calculateFeatureCentroid d = some c →
      centroidCoords d ≠ [] ∧
      c.1 = ((centroidCoords d).map Prod.fst).sum / (centroidCoords d).length ∧
      c.2 = ((centroidCoords d).map Prod.snd).sum / (centroidCoords d).length) := by
  have heq : stateDistrictsGeoJson S D =
      if 0 < D.length then
        if 0 < (D.filter (districtMatches S)).length
        then some (D.filter (districtMatches S)) else none
      else none := rfl
  refine ⟨?_, ?_, ?_⟩
  · intro r hr
    rw [heq] at hr
    split_ifs at hr with h1 h2
    obtain rfl := Option.some.inj hr
    rw [List.mem_filter, districtMatches_iff]
  · rw [heq]
    split_ifs with h1 h2
    · constructor
      · intro hnone
        cases hnone
      · intro hall
        obtain ⟨x, hx⟩ := List.exists_mem_of_length_pos h2
        obtain ⟨hxD, hxM⟩ := List.mem_filter.1 hx
        exact absurd (districtMatches_iff S x |>.1 hxM) (hall x hxD)
    · simp only [true_iff]
      have hnil : D.filter (districtMatches S) = [] :=
        List.length_eq_zero.1 (Nat.le_zero.1 (Nat.not_lt.1 h2))
      intro d2 hd2 hex
      have hnm := List.filter_eq_nil_iff.1 hnil d2 hd2
      exact hnm ((districtMatches_iff S d2).2 hex)
    · simp only [true_iff]
      intro d2 hd2
      rw [List.length_eq_zero.1 (Nat.le_zero.1 (Nat.not_lt.1 h1))] at hd2
      cases hd2
  · intro c hc
    unfold calculateFeatureCentroid at hc
    by_cases hlen : (centroidCoords d).length = 0
    · rw [if_pos hlen] at hc
      exact absurd hc (by simp)
    · rw [if_neg hlen] at hc
      obtain rfl := Option.some.inj hc
      refine ⟨fun hnil => hlen (by rw [hnil]; rfl), ?_, ?_⟩
      · show (centroidCoords d).foldl (fun s c => s + c.1) 0 /
            ((centroidCoords d).length : ℚ) = _
        rw [foldl_add_fst, zero_add]
      · show (centroidCoords d).foldl (fun s c => s + c.2) 0 /
            ((centroidCoords d).length : ℚ) = _
        rw [foldl_add_snd, zero_add]

/-- Witness for `geojson_district_filter`: the sample district's centroid
`(5, 5)` lies in the sample state square, so it is attached. -/
theorem geojson_district_filter_witness :
    sampleDistrict ∈ [sampleDistrict] ↔
      sampleDistrict ∈ [sampleDistrict] ∧
      ∃ c, calculateFeatureCentroid sampleDistrict = some c ∧
        ∃ s ∈ [sampleState], isPointInFeature c s = true :=
  (geojson_district_filter [sampleState] [sampleDistrict] sampleDistrict).1
    [sampleDistrict]
    (by norm_num [stateDistrictsGeoJson, districtMatches, calculateFeatureCentroid,
      centroidCoords, outerRing, isPointInFeature, isPointInPolygon, edgePairs,
      sampleState, sampleDistrict, List.foldl, List.filter, List.getLast?,
      List.dropLast, List.zip, List.zipWith, List.any])

end NeerSetu
